import Mathlib

/-!
Verification development for the tzar archiver repository.

The programs are modelled as pure Lean functions over byte streams
(List Nat, each element a byte value) and an explicit file-system state.
Machine integers are modelled as Nat with explicit reductions modulo
2 ^ 32 or 2 ^ 64 where the C++ code uses uint32_t or uint64_t.
Fallible stream reads return Option; a None result models the C++
runtime_error throw that aborts the surrounding pass.

Modelled host facts, documented where used:
  - the integer length prefixes are written through reinterpret_cast of
    the in-memory value, i.e. in host byte order; the host is x86-64, so
    the byte image is little-endian;
  - istream.read(buf, n) sets failbit when fewer than n bytes remain;
  - ifstream.seekg(off, cur) with a forward offset succeeds even when the
    target position lies beyond end of file (lseek semantics), so the
    failure check after a forward seek never fires; a subsequent peek at
    such a position reports EOF.
-/

/-- Little-endian byte image of the low k bytes of n. This models the raw
memory bytes that outFile.write(reinterpret_cast of an unsigned integer)
emits on the x86-64 host. -/
def leBytes : Nat → Nat → List Nat
  | 0, _ => []
  | k + 1, n => (n % 256) :: leBytes k (n / 256)

/-- Read k bytes little-endian from the stream, as inFile.read into a
k-byte unsigned integer does; fails (models the failbit and throw) when
fewer than k bytes remain. -/
def readLE : Nat → List Nat → Option (Nat × List Nat)
  | 0, s => some (0, s)
  | _ + 1, [] => none
  | k + 1, b :: s =>
    match readLE k s with
    | none => none
    | some (v, rest) => some (b + 256 * v, rest)

/-- Model of writeString (simple_archiver.cpp lines 13 to 19 and the same
helper in tzar_encrypt.cpp): uint32_t len = str.length() truncates the
length modulo 2 ^ 32; the code writes the 4 length bytes and then len
bytes of the string. -/
def writeString (s : List Nat) : List Nat :=
  leBytes 4 (s.length % 2 ^ 32) ++ s.take (s.length % 2 ^ 32)

/-- Model of writeBinaryData (simple_archiver.cpp lines 23 to 29):
uint64_t size prefix followed by size bytes of payload. -/
def writeBinaryData (d : List Nat) : List Nat :=
  leBytes 8 (d.length % 2 ^ 64) ++ d.take (d.length % 2 ^ 64)

/-- One record of the container format: path bytes and payload bytes. -/
abbrev Rec := List Nat × List Nat

/-- Encoding of one record: writeString for the path, then
writeBinaryData for the payload (archiveItem, simple_archiver.cpp
lines 69 to 70 and 75 to 76). -/
def encodeRecord (r : Rec) : List Nat :=
  writeString r.1 ++ writeBinaryData r.2

/-- Encoding of an ordered sequence of records, in order. -/
def encodeRecords : List Rec → List Nat
  | [] => []
  | r :: rs => encodeRecord r ++ encodeRecords rs

/-- Model of readString (simple_unarchiver.cpp lines 14 to 29): read the
4-byte length, then that many path bytes; either short read throws. -/
def readString (s : List Nat) : Option (List Nat × List Nat) :=
  match readLE 4 s with
  | none => none
  | some (len, rest) =>
    if rest.length < len then none else some (rest.take len, rest.drop len)

/-- Model of readBinaryData (simple_unarchiver.cpp lines 34 to 60): read
the 8-byte size; with read_content true, read size bytes (short read
throws); with read_content false the code does seekg(size, cur), which on
a file stream succeeds even past end of file (lseek semantics), so the
guard after it never fires and the position simply advances - modelled by
dropping at most size bytes and returning an empty payload. -/
def readBinaryData (s : List Nat) (read_content : Bool) :
    Option (List Nat × List Nat) :=
  match readLE 8 s with
  | none => none
  | some (size, rest) =>
    if read_content then
      if rest.length < size then none else some (rest.take size, rest.drop size)
    else
      some ([], rest.drop size)

/-- The record-decoding loop of the reader in extract-all mode, collecting
the decoded (path, payload) pairs: while peek is not EOF, readString then
readBinaryData with content (simple_unarchiver.cpp lines 92 to 99). Fuel
bounds the recursion; every iteration consumes at least 12 bytes, so fuel
greater than the stream length never runs out. -/
def decodeRecords : Nat → List Nat → Option (List Rec)
  | 0, _ => none
  | _ + 1, [] => some []
  | fuel + 1, b :: s =>
    match readString (b :: s) with
    | none => none
    | some (p, s1) =>
      match readBinaryData s1 true with
      | none => none
      | some (d, s2) =>
        match decodeRecords fuel s2 with
        | none => none
        | some rs => some ((p, d) :: rs)

/-- Decode a whole stream until exhaustion. -/
def decodeAll (s : List Nat) : Option (List Rec) :=
  decodeRecords (s.length + 1) s

theorem leBytes_length (k n : Nat) : (leBytes k n).length = k := by
  induction k generalizing n with
  | zero => rfl
  | succ k ih => simp [leBytes, ih]

theorem readLE_leBytes (k : Nat) :
    ∀ (n : Nat) (r : List Nat),
      readLE k (leBytes k n ++ r) = some (n % 256 ^ k, r) := by
  induction k with
  | zero => intro n r; simp [leBytes, readLE, Nat.mod_one]
  | succ k ih =>
    intro n r
    have hmm : n % 256 + 256 * (n / 256 % 256 ^ k) = n % (256 ^ (k + 1)) := by
      rw [pow_succ, mul_comm (256 ^ k) 256, Nat.mod_mul]
    simp [leBytes, readLE, ih, hmm]

theorem readString_writeString (s r : List Nat) (h : s.length < 2 ^ 32) :
    readString (writeString s ++ r) = some (s, r) := by
  have hmod : s.length % 2 ^ 32 = s.length := Nat.mod_eq_of_lt h
  have h256 : (256 : Nat) ^ 4 = 2 ^ 32 := by norm_num
  simp only [writeString, hmod, List.take_length, List.append_assoc]
  rw [readString, readLE_leBytes, h256, hmod]
  simp [Nat.mod_eq_of_lt h, List.take_left, List.drop_left]

theorem readBinaryData_writeBinaryData (d r : List Nat)
    (h : d.length < 2 ^ 64) :
    readBinaryData (writeBinaryData d ++ r) true = some (d, r) := by
  have hmod : d.length % 2 ^ 64 = d.length := Nat.mod_eq_of_lt h
  have h256 : (256 : Nat) ^ 8 = 2 ^ 64 := by norm_num
  simp only [writeBinaryData, hmod, List.take_length, List.append_assoc]
  rw [readBinaryData, readLE_leBytes, h256, hmod]
  simp [List.take_left, List.drop_left]

theorem writeString_length (s : List Nat) :
    (writeString s).length = 4 + (s.take (s.length % 2 ^ 32)).length := by
  simp [writeString, leBytes_length]

/-- Well-formedness of a record list for the fixed-width length prefixes:
paths are non-empty and shorter than 2 ^ 32 bytes, payloads shorter than
2 ^ 64 bytes. -/
abbrev wfRecords (rs : List Rec) : Prop :=
  ∀ r ∈ rs, r.1 ≠ [] ∧ r.1.length < 2 ^ 32 ∧ r.2.length < 2 ^ 64

theorem decodeRecords_encodeRecords (rs : List Rec) :
    ∀ fuel, wfRecords rs → (encodeRecords rs).length < fuel →
      decodeRecords fuel (encodeRecords rs) = some rs := by
  induction rs with
  | nil =>
    intro fuel _ hf
    match fuel, hf with
    | f + 1, _ => simp [encodeRecords, decodeRecords]
  | cons r rs ih =>
    intro fuel hwf hf
    have hr := hwf r (List.mem_cons_self r rs)
    have hwf' : wfRecords rs := fun q hq => hwf q (List.mem_cons_of_mem r hq)
    have hlen : (encodeRecords (r :: rs)).length =
        (writeString r.1).length + (writeBinaryData r.2).length +
          (encodeRecords rs).length := by
      simp [encodeRecords, encodeRecord]; omega
    have hws : 4 ≤ (writeString r.1).length := by
      rw [writeString_length]; omega
    match fuel, hf with
    | f + 1, hf =>
      have hne : encodeRecords (r :: rs) ≠ [] := by
        intro hemp
        have := congrArg List.length hemp
        simp only [List.length_nil] at this
        omega
      have hstep : encodeRecords (r :: rs) =
          writeString r.1 ++ (writeBinaryData r.2 ++ encodeRecords rs) := by
        simp [encodeRecords, encodeRecord]
      match hcons : encodeRecords (r :: rs), hne with
      | b :: s, _ =>
        have hfl : (encodeRecords rs).length < f := by
          rw [hstep] at hf
          simp only [List.length_append] at hf
          omega
        rw [decodeRecords]
        rw [← hcons, hstep, readString_writeString _ _ hr.2.1]
        simp only [readBinaryData_writeBinaryData _ _ hr.2.2, ih f hwf' hfl]

theorem readBinaryData_skip_of_full (s s2 d : List Nat)
    (h : readBinaryData s true = some (d, s2)) :
    readBinaryData s false = some ([], s2) := by
  unfold readBinaryData at h ⊢
  match hle : readLE 8 s with
  | none => rw [hle] at h; exact absurd h (by simp)
  | some (size, rest) =>
    rw [hle] at h
    simp only [if_true] at h
    by_cases hlt : rest.length < size
    · rw [if_pos hlt] at h; exact absurd h (by simp)
    · rw [if_neg hlt] at h
      simp only [Option.some.injEq, Prod.mk.injEq] at h
      simp [h.2]

/-- Model of xor_cipher (tzar_encrypt.cpp and tzar_decrypt.cpp lines 121
to 131): an empty key returns the data unchanged, otherwise each byte is
xored with the key byte at index i mod key length. The loop index i is
made explicit. -/
def xorCipherLoop (key : List Nat) : Nat → List Nat → List Nat
  | _, [] => []
  | i, b :: rest =>
    (b ^^^ key.getD (i % key.length) 0) :: xorCipherLoop key (i + 1) rest

/-- The cipher transform, branching on the empty key exactly as the
source does. -/
def xor_cipher (data key : List Nat) : List Nat :=
  if key = [] then data else xorCipherLoop key 0 data

theorem xorCipherLoop_involutive (key : List Nat) (l : List Nat) :
    ∀ i, xorCipherLoop key i (xorCipherLoop key i l) = l := by
  induction l with
  | nil => intro i; rfl
  | cons b rest ih =>
    intro i
    simp [xorCipherLoop, ih (i + 1), Nat.xor_assoc, Nat.xor_self]

/-- Claim C4: the stream-cipher transform is self-inverse for every byte
sequence d and every non-empty key k: transforming twice with the same
key returns the original data. -/
theorem tzar_C4_xor_involutive (d k : List Nat) (h : k ≠ []) :
    xor_cipher (xor_cipher d k) k = d := by
  unfold xor_cipher
  rw [if_neg h, if_neg h]
  exact xorCipherLoop_involutive k d 0

/-- Witness for C4 at a concrete data vector and concrete two-byte key. -/
theorem tzar_C4_witness :
    ([1, 2] : List Nat) ≠ [] ∧
      xor_cipher (xor_cipher [5, 6, 250] [1, 2]) [1, 2] = [5, 6, 250] :=
  ⟨by decide, tzar_C4_xor_involutive [5, 6, 250] [1, 2] (by decide)⟩

/-- Claim C1 (amended): encoding a finite ordered sequence of records
whose paths are non-empty and shorter than 2 ^ 32 bytes and whose
payloads are shorter than 2 ^ 64 bytes, then decoding the stream until
exhaustion, yields exactly the original ordered sequence byte-for-byte.
The size bounds are forced by the fixed-width uint32_t and uint64_t
length prefixes of the codec. -/
theorem tzar_C1_roundtrip (rs : List Rec) (h : wfRecords rs) :
    decodeAll (encodeRecords rs) = some rs :=
  decodeRecords_encodeRecords rs _ h (Nat.lt_succ_self _)

/-- Witness for C1 on a concrete one-record sequence. -/
theorem tzar_C1_witness :
    wfRecords [([97], [66, 67])] ∧
      decodeAll (encodeRecords [([97], [66, 67])]) = some [([97], [66, 67])] :=
  ⟨by decide, tzar_C1_roundtrip [([97], [66, 67])] (by decide)⟩

/-- Counterexample to claim C1 as stated: the claim quantifies over every
finite sequence of records with non-empty paths, but writeString stores
the path length as uint32_t, so a non-empty path of exactly 2 ^ 32 bytes
is written with a zero length prefix and zero path bytes, and decoding
returns the empty path instead of the original one. -/
theorem tzar_C1_counterexample :
    decodeAll (encodeRecords [(List.replicate (2 ^ 32) 97, [65])]) ≠
      some [(List.replicate (2 ^ 32) 97, [65])] := by
  have hbig : (List.replicate (2 ^ 32) 97 : List Nat) ≠ [] := by
    intro he
    have hl := congrArg List.length he
    rw [List.length_replicate, List.length_nil] at hl
    exact absurd hl (by norm_num)
  have hws : writeString (List.replicate (2 ^ 32) 97) = [0, 0, 0, 0] := by
    rw [writeString, List.length_replicate, Nat.mod_self, List.take_zero,
      List.append_nil]
    rfl
  have henc : encodeRecords [(List.replicate (2 ^ 32) 97, [65])] =
      [0, 0, 0, 0, 1, 0, 0, 0, 0, 0, 0, 0, 65] := by
    rw [encodeRecords, encodeRecords, encodeRecord]
    rw [show ((List.replicate (2 ^ 32) 97, [65]) : Rec).1 =
      List.replicate (2 ^ 32) 97 from rfl]
    rw [hws]
    rfl
  rw [henc]
  have hdec : decodeAll [0, 0, 0, 0, 1, 0, 0, 0, 0, 0, 0, 0, 65] =
      some [([], [65])] := by decide
  rw [hdec]
  intro h
  simp only [Option.some.injEq, List.cons.injEq, Prod.mk.injEq] at h
  exact hbig h.1.1.symm

/-- An entry of the modelled output file system: a directory or a regular
file with its content bytes. -/
inductive FsEntry
  | dirE : FsEntry
  | fileE : List Nat → FsEntry
deriving DecidableEq, Repr

/-- The modelled file system: an association list from a normalised path
key (slash-joined non-empty components) to its entry. -/
abbrev Fs := List (List Nat × FsEntry)

def fsLookup (fs : Fs) (p : List Nat) : Option FsEntry :=
  match fs with
  | [] => none
  | (q, e) :: rest => if q = p then some e else fsLookup rest p

def fsSet (fs : Fs) (p : List Nat) (e : FsEntry) : Fs :=
  match fs with
  | [] => [(p, e)]
  | (q, e0) :: rest =>
    if q = p then (p, e) :: rest else (q, e0) :: fsSet rest p e

/-- Split a byte path on the separator byte 47. The result always has at
least one (possibly empty) component. -/
def splitComps : List Nat → List (List Nat)
  | [] => [[]]
  | c :: rest =>
    match splitComps rest with
    | [] => [[]]
    | h :: t => if c = 47 then [] :: h :: t else (c :: h) :: t

/-- Join components with the separator byte 47. -/
def joinComps : List (List Nat) → List Nat
  | [] => []
  | [c] => c
  | c :: cs => c ++ 47 :: joinComps cs

/-- The element list of a relative path in the std::filesystem sense:
repeated separators collapse, and a trailing separator contributes one
final empty element (so the filename of a path ending in a slash is
empty and its parent is the part before the slash). -/
def pathElems (p : List Nat) : List (List Nat) :=
  let raw := splitComps p
  (raw.filter (· ≠ [])) ++
    (if raw.getLast? = some [] ∧ p ≠ [] then [[]] else [])

/-- The non-empty components of a path, used as its normalised lookup
key. -/
def cleanComps (p : List Nat) : List (List Nat) :=
  (splitComps p).filter (· ≠ [])

/-- Whether the path ends in a separator byte. -/
def endsWithSep (p : List Nat) : Bool :=
  p.getLast? = some 47

/-- The normalised file-system key of a path. -/
def pathKey (p : List Nat) : List Nat :=
  joinComps (cleanComps p)

/-- Whether the OS reports the path as existing: a trailing-separator
path resolves only if the entry is a directory (stat of a file path with
a trailing slash fails with ENOTDIR). -/
def existsAt (fs : Fs) (p : List Nat) : Bool :=
  match fsLookup fs (pathKey p) with
  | none => false
  | some .dirE => true
  | some (.fileE _) => !(endsWithSep p)

/-- Model of fs::create_directories over a component list: create each
successive prefix directory if absent; an existing regular file in the
way makes create_directories throw filesystem_error, modelled as none. -/
def ensureDirsAux (fs : Fs) (done : List (List Nat)) :
    List (List Nat) → Option Fs
  | [] => some fs
  | c :: rest =>
    let key := joinComps (done ++ [c])
    match fsLookup fs key with
    | some .dirE => ensureDirsAux fs (done ++ [c]) rest
    | some (.fileE _) => none
    | none => ensureDirsAux (fsSet fs key .dirE) (done ++ [c]) rest

def ensureDirs (fs : Fs) (comps : List (List Nat)) : Option Fs :=
  ensureDirsAux fs [] comps

/-- Outcome of materialising one decoded record. -/
inductive MatOutcome
  | dirAlready
  | dirCreated
  | conflictSkip
  | fileWritten
  | openFailSkip
  | fatalErr
deriving DecidableEq, Repr

/-- Model of the per-record materialisation branch of the unarchiver main
loop (simple_unarchiver.cpp lines 104 to 139): create parent directories
when the path has a parent; an empty payload is handled by the directory
branch (directory already there, name conflict with a file, or create),
a non-empty payload is handled by the file branch (open failure skips,
otherwise the file is written or overwritten). A filesystem_error from
create_directories derives from runtime_error and is caught by the fatal
handler of main, modelled as the fatalErr outcome. Opening the output
file fails when the target is an existing directory, when the path ends
in a separator, or when the path has no components. -/
def materializeDirBranch (fs1 : Fs) (p : List Nat) : Fs × MatOutcome :=
  if existsAt fs1 p then
    if fsLookup fs1 (pathKey p) = some .dirE then (fs1, .dirAlready)
    else (fs1, .conflictSkip)
  else
    if cleanComps p = [] then (fs1, .fatalErr)
    else
      match ensureDirs fs1 (cleanComps p) with
      | none => (fs1, .fatalErr)
      | some fs2 => (fs2, .dirCreated)

def materializeFileBranch (fs1 : Fs) (p : List Nat) (content : List Nat) :
    Fs × MatOutcome :=
  if endsWithSep p ∨ cleanComps p = [] ∨
      fsLookup fs1 (pathKey p) = some .dirE then
    (fs1, .openFailSkip)
  else
    (fsSet fs1 (pathKey p) (.fileE content), .fileWritten)

def materializeRecord (fs : Fs) (p : List Nat) (content : List Nat) :
    Fs × MatOutcome :=
  match (if (pathElems p).length ≥ 2 then
      ensureDirs fs ((pathElems p).dropLast.filter (· ≠ []))
    else some fs) with
  | none => (fs, .fatalErr)
  | some fs1 =>
    if content = [] then materializeDirBranch fs1 p
    else materializeFileBranch fs1 p content

/-- Result of one reader pass: process exit code, the extracted and
skipped counters, the final file system, and a trace with one entry per
fully processed record, carrying the record path, whether the payload
was fully decoded (true) or skip-decoded (false), and the materialise
outcome (none for records that were skip-decoded). The counters that the source mutates
in place are modelled by adding the contribution of each processed
record in return position, which yields the same final counts. -/
structure ExtractResult where
  exit : Nat
  extracted : Nat
  skipped : Nat
  fs : Fs
  trace : List (List Nat × Bool × Option MatOutcome)
deriving DecidableEq, Repr

/-- The reader main loop of simple_unarchiver.cpp (lines 87 to 158): read
records until the stream is exhausted; a record whose path is selected
(or extract-all mode) is fully decoded and materialised, other records
are skip-decoded and counted as skipped; name conflicts and open
failures hit a continue statement and reach neither counter; any decode
failure or filesystem_error aborts the pass with exit code 1. Fuel
bounds the recursion; every iteration consumes at least 12 stream bytes,
so fuel greater than the stream length never runs out. -/
def extractLoop : Nat → List Nat → List (List Nat) → Bool → Fs →
    ExtractResult
  | 0, _, _, _, fs => ⟨1, 0, 0, fs, []⟩
  | fuel + 1, s, sel, ea, fs =>
    if s = [] then ⟨0, 0, 0, fs, []⟩
    else
      match readString s with
      | none => ⟨1, 0, 0, fs, []⟩
      | some (p, s1) =>
        if ea || sel.contains p then
          match readBinaryData s1 true with
          | none => ⟨1, 0, 0, fs, []⟩
          | some (content, s2) =>
            match materializeRecord fs p content with
            | (fs2, MatOutcome.fatalErr) => ⟨1, 0, 0, fs2, []⟩
            | (fs2, out) =>
              let r := extractLoop fuel s2 sel ea fs2
              ⟨r.exit,
                (if out = .conflictSkip ∨ out = .openFailSkip then 0 else 1)
                  + r.extracted,
                r.skipped, r.fs, (p, true, some out) :: r.trace⟩
        else
          match readBinaryData s1 false with
          | none => ⟨1, 0, 0, fs, []⟩
          | some (_, s2) =>
            let r := extractLoop fuel s2 sel ea fs
            ⟨r.exit, r.extracted, 1 + r.skipped, r.fs,
              (p, false, none) :: r.trace⟩

/-- One full reader pass over a byte stream. -/
def runExtract (bytes : List Nat) (sel : List (List Nat)) (ea : Bool)
    (fs : Fs) : ExtractResult :=
  extractLoop (bytes.length + 1) bytes sel ea fs

theorem fsLookup_fsSet (fs : Fs) (key q : List Nat) (e : FsEntry) :
    fsLookup (fsSet fs key e) q =
      if key = q then some e else fsLookup fs q := by
  induction fs with
  | nil => simp [fsSet, fsLookup]
  | cons hd rest ih =>
    obtain ⟨q0, e0⟩ := hd
    by_cases hq0 : q0 = key
    · subst hq0
      simp only [fsSet, if_pos rfl, fsLookup]
      by_cases hq : q0 = q
      · subst hq; simp [fsLookup]
      · simp [fsLookup, hq]
    · simp only [fsSet, if_neg hq0, fsLookup]
      by_cases hq : q0 = q
      · subst hq
        have hkq : ¬key = q0 := fun hh => hq0 hh.symm
        simp [fsLookup, if_neg hkq]
      · simp [fsLookup, if_neg hq, ih]

theorem fsLookup_fsSet_dir (fs : Fs) (key q c : List Nat)
    (h : fsLookup (fsSet fs key .dirE) q = some (.fileE c)) :
    fsLookup fs q = some (.fileE c) := by
  rw [fsLookup_fsSet] at h
  split at h
  · exact absurd h (by simp)
  · exact h

theorem ensureDirsAux_preserves_file (todo : List (List Nat)) :
    ∀ (fs fs' : Fs) (done : List (List Nat)) (q c : List Nat),
      ensureDirsAux fs done todo = some fs' →
      fsLookup fs' q = some (.fileE c) → fsLookup fs q = some (.fileE c) := by
  induction todo with
  | nil =>
    intro fs fs' done q c h hl
    simp only [ensureDirsAux, Option.some.injEq] at h
    rw [← h] at hl
    exact hl
  | cons cpt rest ih =>
    intro fs fs' done q c h hl
    unfold ensureDirsAux at h
    dsimp only at h
    split at h
    · exact ih fs fs' _ q c h hl
    · exact absurd h (by simp)
    · exact fsLookup_fsSet_dir fs _ q c
        (ih (fsSet fs _ .dirE) fs' _ q c h hl)

theorem ensureDirs_preserves_file (fs fs' : Fs) (comps : List (List Nat))
    (q c : List Nat) (h : ensureDirs fs comps = some fs')
    (hl : fsLookup fs' q = some (.fileE c)) :
    fsLookup fs q = some (.fileE c) :=
  ensureDirsAux_preserves_file comps fs fs' [] q c h hl

theorem materializeDirBranch_not_file (fs1 : Fs) (p : List Nat) :
    (materializeDirBranch fs1 p).2 ≠ .fileWritten ∧
      (materializeDirBranch fs1 p).2 ≠ .openFailSkip := by
  unfold materializeDirBranch
  split
  · split <;> simp
  · split
    · simp
    · split <;> simp

theorem materializeFileBranch_not_dir (fs1 : Fs) (p content : List Nat) :
    (materializeFileBranch fs1 p content).2 ≠ .dirAlready ∧
      (materializeFileBranch fs1 p content).2 ≠ .dirCreated ∧
      (materializeFileBranch fs1 p content).2 ≠ .conflictSkip := by
  unfold materializeFileBranch
  split <;> simp

theorem materializeDirBranch_preserves_file (fs1 : Fs) (p q c : List Nat)
    (hl : fsLookup (materializeDirBranch fs1 p).1 q = some (.fileE c)) :
    fsLookup fs1 q = some (.fileE c) := by
  revert hl
  unfold materializeDirBranch
  split
  · split <;> (intro hl; exact hl)
  · split
    · intro hl; exact hl
    · split
      · intro hl; exact hl
      · rename_i fs2 hfs2
        intro hl
        exact ensureDirs_preserves_file fs1 fs2 _ q c hfs2 hl

/-- Claim C2: a record materialised by the reader is interpreted through
its payload length alone: a zero-length payload goes through the
directory branch (its outcome is never a file write or a file-open
skip, and it never adds a regular file to the file system), a non-empty
payload goes through the file branch (its outcome is never a directory
outcome or a directory-name conflict); and the concrete record with path
empty.txt (bytes 101 109 112 116 121 46 116 120 116) and empty payload
materialises on an empty file system as a directory named empty.txt,
not as a zero-byte regular file. -/
theorem tzar_C2_payload_kind :
    (∀ fs p c, c ≠ [] →
      (materializeRecord fs p c).2 ≠ .dirAlready ∧
      (materializeRecord fs p c).2 ≠ .dirCreated ∧
      (materializeRecord fs p c).2 ≠ .conflictSkip) ∧
    (∀ fs p,
      (materializeRecord fs p []).2 ≠ .fileWritten ∧
      (materializeRecord fs p []).2 ≠ .openFailSkip ∧
      ∀ q c, fsLookup (materializeRecord fs p []).1 q = some (.fileE c) →
        fsLookup fs q = some (.fileE c)) ∧
    materializeRecord [] [101, 109, 112, 116, 121, 46, 116, 120, 116] [] =
      ([([101, 109, 112, 116, 121, 46, 116, 120, 116], .dirE)],
        .dirCreated) ∧
    fsLookup
        (materializeRecord [] [101, 109, 112, 116, 121, 46, 116, 120, 116]
          []).1 [101, 109, 112, 116, 121, 46, 116, 120, 116] ≠
      some (.fileE []) := by
  refine ⟨?_, ?_, by decide, by decide⟩
  · intro fs p c hc
    unfold materializeRecord
    split
    · simp
    · rw [if_neg hc]
      exact materializeFileBranch_not_dir _ p c
  · intro fs p
    unfold materializeRecord
    refine ⟨?_, ?_, ?_⟩
    · split
      · simp
      · rw [if_pos rfl]
        exact (materializeDirBranch_not_file _ p).1
    · split
      · simp
      · rw [if_pos rfl]
        exact (materializeDirBranch_not_file _ p).2
    · intro q c
      split
      · intro hl; exact hl
      · rename_i fs1 hfs1
        have hfs1p : ∀ q2 c2, fsLookup fs1 q2 = some (.fileE c2) →
            fsLookup fs q2 = some (.fileE c2) := by
          split at hfs1
          · intro q2 c2 h2
            exact ensureDirs_preserves_file fs fs1 _ q2 c2 hfs1 h2
          · intro q2 c2 h2
            cases hfs1
            exact h2
        rw [if_pos rfl]
        intro hl
        exact hfs1p q c (materializeDirBranch_preserves_file fs1 p q c hl)

/-- Witness for C2 at concrete inputs: a one-byte payload record is not
treated as a directory entry, and the empty-payload record is not
treated as a file entry. -/
theorem tzar_C2_witness :
    (materializeRecord [] [97] [66]).2 ≠ .dirCreated ∧
      (materializeRecord [] [97] []).2 ≠ .fileWritten :=
  ⟨(tzar_C2_payload_kind.1 [] [97] [66] (by decide)).2.1,
    (tzar_C2_payload_kind.2.1 [] [97]).1⟩

/-- Claim C3 evaluation (code bug): the container bytes
1 0 0 0 97 100 0 0 0 0 0 0 0 are a record with path a (one byte 97)
whose payload length prefix declares 100 bytes but whose payload is
entirely missing. First conjunct: when the record is not selected the
reader skip-decodes it, the forward seek past end of file succeeds, and
the pass ends with exit code 0 and the truncated record counted as
skipped - the truncation is silently tolerated, against both the spec
and the dead throw after seekg in the source. Second conjunct: the same
bytes with the record selected are fully decoded and the truncation is
detected as a fatal error. Third conjunct: a container truncated right
after the first record path bytes (bytes 1 0 0 0 97) makes the reader
fail with exit code 1 having extracted zero records, as the claim
states. -/
theorem tzar_C3_truncation_behavior :
    runExtract [1, 0, 0, 0, 97, 100, 0, 0, 0, 0, 0, 0, 0] [[98]] false [] =
      ⟨0, 0, 1, [], [([97], false, none)]⟩ ∧
    runExtract [1, 0, 0, 0, 97, 100, 0, 0, 0, 0, 0, 0, 0] [[97]] false [] =
      ⟨1, 0, 0, [], []⟩ ∧
    runExtract [1, 0, 0, 0, 97] [] true [] = ⟨1, 0, 0, [], []⟩ := by
  refine ⟨by decide, by decide, by decide⟩

/-- Claim C6: for a plain container holding exactly the records a.txt
with three payload bytes, dir/ with empty payload and b.txt with two
payload bytes, and the selection set holding only b.txt, the reader
writes exactly the one file b.txt with its two bytes, skip-decodes the
two unselected records (trace entries with full-decode flag false and no
materialise outcome), and reports one extracted and two skipped. -/
theorem tzar_C6_selective_extraction :
    runExtract
        (encodeRecords
          [([97, 46, 116, 120, 116], [65, 65, 65]),
           ([100, 105, 114, 47], []),
           ([98, 46, 116, 120, 116], [66, 66])])
        [[98, 46, 116, 120, 116]] false [] =
      ⟨0, 1, 2, [([98, 46, 116, 120, 116], FsEntry.fileE [66, 66])],
        [([97, 46, 116, 120, 116], false, none),
         ([100, 105, 114, 47], false, none),
         ([98, 46, 116, 120, 116], true, some .fileWritten)]⟩ := by
  decide

/-- Count of trace entries whose record hit the continue statements of
the materialisation branch: a directory-name conflict or an output-file
open failure. These entries reach neither counter. -/
def uncountedSkips (tr : List (List Nat × Bool × Option MatOutcome)) : Nat :=
  tr.countP (fun t =>
    decide (t.2.2 = some MatOutcome.conflictSkip ∨
      t.2.2 = some MatOutcome.openFailSkip))

theorem extractLoop_counts (fuel : Nat) :
    ∀ s sel ea fs,
      (extractLoop fuel s sel ea fs).extracted +
          (extractLoop fuel s sel ea fs).skipped +
          uncountedSkips (extractLoop fuel s sel ea fs).trace =
        (extractLoop fuel s sel ea fs).trace.length := by
  induction fuel with
  | zero => intro s sel ea fs; simp [extractLoop, uncountedSkips]
  | succ fuel ih =>
    intro s sel ea fs
    by_cases hs : s = []
    · subst hs; simp [extractLoop, uncountedSkips]
    · rw [extractLoop, if_neg hs]
      cases hread : readString s with
      | none => simp [uncountedSkips]
      | some ps =>
        obtain ⟨p, s1⟩ := ps
        dsimp only
        by_cases hsel : (ea || sel.contains p) = true
        · rw [if_pos hsel]
          cases hbd : readBinaryData s1 true with
          | none => simp [uncountedSkips]
          | some cs2 =>
            obtain ⟨content, s2⟩ := cs2
            dsimp only
            rcases hmat : materializeRecord fs p content with ⟨fs2, out⟩
            have hih := ih s2 sel ea fs2
            cases out <;>
              simp [uncountedSkips, List.countP_cons] at hih ⊢ <;> omega
        · rw [if_neg hsel]
          cases hbd : readBinaryData s1 false with
          | none => simp [uncountedSkips]
          | some ds2 =>
            obtain ⟨d0, s2⟩ := ds2
            dsimp only
            have hih := ih s2 sel ea fs
            simp [uncountedSkips, List.countP_cons] at hih ⊢
            omega

theorem extractLoop_trace_length (fuel : Nat) :
    ∀ s sel ea fs rs, decodeRecords fuel s = some rs →
      (extractLoop fuel s sel ea fs).exit = 0 →
      (extractLoop fuel s sel ea fs).trace.length = rs.length := by
  induction fuel with
  | zero => intro s sel ea fs rs h _; simp [decodeRecords] at h
  | succ fuel ih =>
    intro s sel ea fs rs hdec
    by_cases hs : s = []
    · subst hs
      rw [decodeRecords] at hdec
      cases hdec
      intro _
      simp [extractLoop]
    · obtain ⟨b, s', rfl⟩ := List.exists_cons_of_ne_nil hs
      rw [decodeRecords] at hdec
      rw [extractLoop, if_neg hs]
      cases hread : readString (b :: s') with
      | none => rw [hread] at hdec; exact absurd hdec (by simp)
      | some ps =>
        obtain ⟨p, s1⟩ := ps
        rw [hread] at hdec
        dsimp only at hdec ⊢
        cases hbd : readBinaryData s1 true with
        | none => rw [hbd] at hdec; exact absurd hdec (by simp)
        | some ds2 =>
          obtain ⟨d, s2⟩ := ds2
          rw [hbd] at hdec
          dsimp only at hdec
          cases hrec : decodeRecords fuel s2 with
          | none => rw [hrec] at hdec; exact absurd hdec (by simp)
          | some rs2 =>
            rw [hrec] at hdec
            dsimp only at hdec
            obtain rfl : rs = (p, d) :: rs2 := by
              cases hdec; rfl
            by_cases hsel : (ea || sel.contains p) = true
            · rw [if_pos hsel]
              dsimp only
              rcases hmat : materializeRecord fs p d with ⟨fs2, out⟩
              cases out with
              | fatalErr => intro h; simp at h
              | dirAlready =>
                intro h
                simp only [List.length_cons]
                rw [ih s2 sel ea fs2 rs2 hrec h]
              | dirCreated =>
                intro h
                simp only [List.length_cons]
                rw [ih s2 sel ea fs2 rs2 hrec h]
              | conflictSkip =>
                intro h
                simp only [List.length_cons]
                rw [ih s2 sel ea fs2 rs2 hrec h]
              | fileWritten =>
                intro h
                simp only [List.length_cons]
                rw [ih s2 sel ea fs2 rs2 hrec h]
              | openFailSkip =>
                intro h
                simp only [List.length_cons]
                rw [ih s2 sel ea fs2 rs2 hrec h]
            · rw [if_neg hsel]
              rw [readBinaryData_skip_of_full s1 s2 d hbd]
              dsimp only
              intro h
              simp only [List.length_cons]
              rw [ih s2 sel ea fs rs2 hrec h]

/-- Claim C10: in a reader pass with a selection, each selected record
that hits a continue statement (its zero-length payload targets a path
occupied by a regular file, or its output file cannot be opened) is
counted in neither the extracted nor the skipped counter; those records
are exactly the uncounted trace entries, so extracted plus skipped plus
uncounted equals the number of records in the container, and whenever at
least one such record occurs the two reported counts sum to strictly
fewer than the number of records. -/
theorem tzar_C10_uncounted_entries (bytes : List Nat)
    (sel : List (List Nat)) (ea : Bool) (fs : Fs) (rs : List Rec)
    (hdec : decodeAll bytes = some rs)
    (hexit : (runExtract bytes sel ea fs).exit = 0) :
    (runExtract bytes sel ea fs).extracted +
        (runExtract bytes sel ea fs).skipped +
        uncountedSkips (runExtract bytes sel ea fs).trace = rs.length ∧
      (0 < uncountedSkips (runExtract bytes sel ea fs).trace →
        (runExtract bytes sel ea fs).extracted +
            (runExtract bytes sel ea fs).skipped < rs.length) := by
  have h1 := extractLoop_counts (bytes.length + 1) bytes sel ea fs
  have h2 := extractLoop_trace_length (bytes.length + 1) bytes sel ea fs rs
    hdec hexit
  simp only [runExtract] at *
  omega

/-- Witness for C10: a container with records x (empty payload) and y
(one payload byte), extracted with both records selected over a file
system where x is already a regular file: record x hits the name
conflict continue, so extracted plus skipped falls short of the two
records in the container. -/
theorem tzar_C10_witness :
    (runExtract (encodeRecords [([120], []), ([121], [89])])
          [[120], [121]] false [([120], FsEntry.fileE [1])]).extracted +
        (runExtract (encodeRecords [([120], []), ([121], [89])])
          [[120], [121]] false [([120], FsEntry.fileE [1])]).skipped <
      ([([120], []), ([121], [89])] : List Rec).length :=
  (tzar_C10_uncounted_entries (encodeRecords [([120], []), ([121], [89])])
      [[120], [121]] false [([120], FsEntry.fileE [1])]
      [([120], []), ([121], [89])] (by decide) (by decide)).2 (by decide)

/-- Right rotation of a 32-bit word: the ROTR macro of tzar_encrypt.cpp
and tzar_decrypt.cpp line 19, with the uint32_t wraparound explicit. -/
def rotr32 (n x : Nat) : Nat := ((x >>> n) ||| (x <<< (32 - n))) % 2 ^ 32

/-- The CH function; bitwise complement of a uint32_t is xor with the
all-ones 32-bit mask. -/
def chF (x y z : Nat) : Nat := (x &&& y) ^^^ ((x ^^^ 0xFFFFFFFF) &&& z)

def majF (x y z : Nat) : Nat := (x &&& y) ^^^ (x &&& z) ^^^ (y &&& z)

def sig0 (x : Nat) : Nat := rotr32 2 x ^^^ rotr32 13 x ^^^ rotr32 22 x

def sig1 (x : Nat) : Nat := rotr32 6 x ^^^ rotr32 11 x ^^^ rotr32 25 x

def capSig0 (x : Nat) : Nat := rotr32 7 x ^^^ rotr32 18 x ^^^ (x >>> 3)

def capSig1 (x : Nat) : Nat := rotr32 17 x ^^^ rotr32 19 x ^^^ (x >>> 10)

/-- The 64 SHA256 round constants K (tzar_encrypt.cpp lines 30 to 39),
written here as the decimal values of the hexadecimal table in the
source. -/
def sha256K : List Nat :=
  [1116352408, 1899447441, 3049323471, 3921009573,
   961987163, 1508970993, 2453635748, 2870763221,
   3624381080, 310598401, 607225278, 1426881987,
   1925078388, 2162078206, 2614888103, 3248222580,
   3835390401, 4022224774, 264347078, 604807628,
   770255983, 1249150122, 1555081692, 1996064986,
   2554220882, 2821834349, 2952996808, 3210313671,
   3336571891, 3584528711, 113926993, 338241895,
   666307205, 773529912, 1294757372, 1396182291,
   1695183700, 1986661051, 2177026350, 2456956037,
   2730485921, 2820302411, 3259730800, 3345764771,
   3516065817, 3600352804, 4094571909, 275423344,
   430227734, 506948616, 659060556, 883997877,
   958139571, 1322822218, 1536477775, 1747873779,
   1955562222, 2024104815, 2227730452, 2361852424,
   2428436474, 2756734187, 3204031479, 3329325298]

/-- The initial hash state H0 to H7 (lines 42 to 45), decimal values of
the hexadecimal table in the source. -/
def sha256H0 : List Nat :=
  [1779033703, 3144134277, 1013904242, 2773480762,
   1359893119, 2600822924, 528734635, 1541459225]

/-- The first 16 message-schedule words, big-endian from the block bytes
(sha256_transform lines 53 to 55); each byte is below 256 so the shifted
or is already below 2 ^ 32. -/
def wInit (block : List Nat) : List Nat :=
  (List.range 16).map (fun i =>
    ((block.getD (4 * i) 0) <<< 24) ||| ((block.getD (4 * i + 1) 0) <<< 16) |||
      ((block.getD (4 * i + 2) 0) <<< 8) ||| block.getD (4 * i + 3) 0)

/-- Extension of the message schedule from 16 to 64 words (lines 57 to
59), with the uint32_t addition wraparound explicit. -/
def wExtend : Nat → List Nat → List Nat
  | 0, w => w
  | n + 1, w =>
    wExtend n (w ++ [(capSig1 (w.getD (w.length - 2) 0) +
      w.getD (w.length - 7) 0 + capSig0 (w.getD (w.length - 15) 0) +
      w.getD (w.length - 16) 0) % 2 ^ 32])

/-- One compression round (lines 61 to 72) over the eight state words. -/
def sha256Round (st : List Nat) (kw : Nat × Nat) : List Nat :=
  match st with
  | [a, b, c, d, e, f, g, h] =>
    let t1 := (h + sig1 e + chF e f g + kw.1 + kw.2) % 2 ^ 32
    let t2 := (sig0 a + majF a b c) % 2 ^ 32
    [(t1 + t2) % 2 ^ 32, a, b, c, (d + t1) % 2 ^ 32, e, f, g]
  | _ => st

/-- The compression function sha256_transform (lines 48 to 82): 64 rounds
then the feed-forward addition into the incoming state. -/
def sha256_transform (st : List Nat) (block : List Nat) : List Nat :=
  let w := wExtend 48 (wInit block)
  let final := (sha256K.zip w).foldl sha256Round st
  List.zipWith (fun x y => (x + y) % 2 ^ 32) st final

/-- The message padding of sha256 (lines 89 to 103): append 0x80, then
zero bytes until the length is 56 mod 64 - the while loop appends exactly
(64 + 56 - ((n + 1) mod 64)) mod 64 zeros for an input of n bytes - then
the 64-bit bit length big-endian. -/
def sha256Pad (data : List Nat) : List Nat :=
  let bitLen := (8 * data.length) % 2 ^ 64
  data ++ 0x80 :: (List.replicate ((64 + 56 - ((data.length + 1) % 64)) % 64) 0
    ++ (List.range 8).map (fun i => (bitLen >>> (8 * (7 - i))) &&& 0xFF))

/-- Iterate the compression function over the 64-byte blocks of the
padded message (lines 105 to 107); the block count is the fuel. -/
def sha256Blocks : Nat → List Nat → List Nat → List Nat
  | 0, st, _ => st
  | n + 1, st, l => sha256Blocks n (sha256_transform st (l.take 64)) (l.drop 64)

/-- The digest function sha256 (lines 85 to 117): pad, compress every
block starting from the fixed initial state, serialise the eight state
words big-endian into 32 bytes. -/
def sha256 (data : List Nat) : List Nat :=
  let padded := sha256Pad data
  let st := sha256Blocks (padded.length / 64) sha256H0 padded
  (st.map (fun v => [(v >>> 24) &&& 0xFF, (v >>> 16) &&& 0xFF,
    (v >>> 8) &&& 0xFF, v &&& 0xFF])).flatten

/-- Result of one encrypt invocation: process exit code, whether the
input archive stream was opened, and the bytes written to the output
file (none when no output file was created). -/
structure EncResult where
  exit : Nat
  openedInput : Bool
  output : Option (List Nat)
deriving DecidableEq, Repr

/-- The record loop of tzar_encrypt main (lines 216 to 230): read each
record, xor the payload with the key, and write path and transformed
payload; a decode failure aborts with exit 1, leaving the output written
so far. Returns the body bytes written after the flag byte and the exit
code. -/
def encLoop : Nat → List Nat → List Nat → List Nat × Nat
  | 0, _, _ => ([], 1)
  | fuel + 1, s, key =>
    if s = [] then ([], 0)
    else
      match readString s with
      | none => ([], 1)
      | some (p, s1) =>
        match readBinaryData s1 true with
        | none => ([], 1)
        | some (d, s2) =>
          let r := encLoop fuel s2 key
          (writeString p ++ writeBinaryData (xor_cipher d key) ++ r.1, r.2)

/-- The encrypt pass after the password gate: open the streams, write the
single flag byte 0x01 (tzar_encrypt.cpp line 214) and run the record
loop. -/
def encryptWithKey (key inp : List Nat) : EncResult :=
  ⟨(encLoop (inp.length + 1) inp key).2, true,
    some (1 :: (encLoop (inp.length + 1) inp key).1)⟩

/-- tzar_encrypt main (lines 168 onward): an empty password is rejected
with exit 1 before any file is opened (lines 192 to 195 precede the
stream opens at lines 200 and 206); otherwise the key is
sha256(password bytes) (lines 197 to 198) and the encrypt pass runs. -/
def encryptRun (password inp : List Nat) : EncResult :=
  if password = [] then ⟨1, false, none⟩
  else encryptWithKey (sha256 password) inp

/-- Error classification of one decrypt invocation. -/
inductive DecErr
  | noErr
  | usageErr
  | eofFlag
  | badFlag
  | streamErr
  | fatalFs
deriving DecidableEq, Repr

/-- Result of one decrypt invocation. -/
structure DecResult where
  exit : Nat
  openedInput : Bool
  fs : Fs
  extracted : Nat
  err : DecErr
deriving DecidableEq, Repr

/-- The path output_base_path / filename of tzar_decrypt.cpp line 228:
appending a relative record path under the base component list; an
absolute record path replaces the base, following the std::filesystem
append semantics. -/
def joinBase (base : List (List Nat)) (fn : List Nat) : List Nat :=
  if fn.head? = some 47 then fn
  else if base = [] then fn
  else joinComps base ++ 47 :: fn

/-- The record loop of tzar_decrypt main (lines 219 to 261): read each
record fully, xor the payload back, and materialise it under the output
base directory with the same directory-or-file branch as the unarchiver;
conflict and open-failure continues bypass the extracted counter. -/
def decLoop : Nat → List Nat → List Nat → List (List Nat) → Fs → DecResult
  | 0, _, _, _, fs => ⟨1, true, fs, 0, .streamErr⟩
  | fuel + 1, s, key, base, fs =>
    if s = [] then ⟨0, true, fs, 0, .noErr⟩
    else
      match readString s with
      | none => ⟨1, true, fs, 0, .streamErr⟩
      | some (p, s1) =>
        match readBinaryData s1 true with
        | none => ⟨1, true, fs, 0, .streamErr⟩
        | some (enc, s2) =>
          match materializeRecord fs (joinBase base p) (xor_cipher enc key)
            with
          | (fs2, MatOutcome.fatalErr) => ⟨1, true, fs2, 0, .streamErr⟩
          | (fs2, out) =>
            let r := decLoop fuel s2 key base fs2
            ⟨r.exit, true, r.fs,
              (if out = .conflictSkip ∨ out = .openFailSkip then 0 else 1) +
                r.extracted,
              r.err⟩

/-- The decrypt pass after the password gate (tzar_decrypt.cpp lines 196
to 261): open the input, read the flag byte - a missing byte is an end
of file error, any value other than 0x01 is the format mismatch error
that refuses to decrypt (lines 202 to 213) - then create the output base
directory and run the record loop. The output base directory (the stem
of the archive name) is supplied as an already-computed component list,
path derivation being an excluded collaborator. -/
def decryptWithKey (key inp : List Nat) (base : List (List Nat))
    (fs : Fs) : DecResult :=
  match inp with
  | [] => ⟨1, true, fs, 0, .eofFlag⟩
  | b :: rest =>
    if b = 1 then
      match ensureDirs fs base with
      | none => ⟨1, true, fs, 0, .fatalFs⟩
      | some fs1 => decLoop (rest.length + 1) rest key base fs1
    else ⟨1, true, fs, 0, .badFlag⟩

/-- tzar_decrypt main: an empty password is rejected with exit 1 before
the input is opened (lines 188 to 191 precede the open at line 196);
otherwise the key is sha256(password bytes) (lines 193 to 194) and the
decrypt pass runs. -/
def decryptRun (password inp : List Nat) (base : List (List Nat))
    (fs : Fs) : DecResult :=
  if password = [] then ⟨1, false, fs, 0, .usageErr⟩
  else decryptWithKey (sha256 password) inp base fs

/-- Claim C5: decoding an encrypted container whose leading flag byte is
not 0x01 fails with the format mismatch error, exit code 1, an untouched
file system and zero extracted records; conversely the encrypt operation
with an accepted password always writes the single flag byte 0x01 before
any record bytes. -/
theorem tzar_C5_flag_byte :
    (∀ pw b rest base fs, pw ≠ [] → b ≠ 1 →
      decryptRun pw (b :: rest) base fs = ⟨1, true, fs, 0, .badFlag⟩) ∧
    (∀ pw inp, pw ≠ [] →
      ∃ body, (encryptRun pw inp).output = some (1 :: body)) := by
  constructor
  · intro pw b rest base fs hpw hb
    rw [decryptRun, if_neg hpw]
    rw [decryptWithKey]
    rw [if_neg hb]
  · intro pw inp hpw
    rw [encryptRun, if_neg hpw]
    exact ⟨_, rfl⟩

/-- Witness for C5: flag byte 5 is rejected, and an encrypt run over an
empty archive still writes the flag byte first. -/
theorem tzar_C5_witness :
    decryptRun [97] [5] [] [] = ⟨1, true, [], 0, .badFlag⟩ ∧
      ∃ body, (encryptRun [97] []).output = some (1 :: body) :=
  ⟨tzar_C5_flag_byte.1 [97] 5 [] [] [] (by decide) (by decide),
    tzar_C5_flag_byte.2 [97] [] (by decide)⟩

/-- Claim C9: for both the encrypt and the decrypt operation, an empty
password is rejected as a usage error with exit code 1 before any
archive I/O (the input stream is not opened, no output is produced and
the file system is untouched), and with a non-empty password the run
proceeds with the cipher key sha256(password bytes). -/
theorem tzar_C9_password_guard :
    (∀ inp, encryptRun [] inp = ⟨1, false, none⟩) ∧
    (∀ inp base fs, decryptRun [] inp base fs = ⟨1, false, fs, 0, .usageErr⟩) ∧
    (∀ pw inp, pw ≠ [] → encryptRun pw inp = encryptWithKey (sha256 pw) inp) ∧
    (∀ pw inp base fs, pw ≠ [] →
      decryptRun pw inp base fs = decryptWithKey (sha256 pw) inp base fs) := by
  refine ⟨fun inp => rfl, fun inp base fs => rfl, ?_, ?_⟩
  · intro pw inp hpw
    rw [encryptRun, if_neg hpw]
  · intro pw inp base fs hpw
    rw [decryptRun, if_neg hpw]

/-- Witness for C9 at concrete passwords. -/
theorem tzar_C9_witness :
    encryptRun [] [] = ⟨1, false, none⟩ ∧
      encryptRun [97] [] = encryptWithKey (sha256 [97]) [] ∧
      decryptRun [97] [] [] [] = decryptWithKey (sha256 [97]) [] [] [] :=
  ⟨tzar_C9_password_guard.1 [],
    tzar_C9_password_guard.2.2.1 [97] [] (by decide),
    tzar_C9_password_guard.2.2.2 [97] [] [] [] (by decide)⟩

/-- A path in the std::filesystem decomposition used by the archiver: an
absolute flag and the list of elements; a trailing separator shows up as
a final empty element. -/
structure FsPath where
  isAbs : Bool
  comps : List (List Nat)
deriving DecidableEq, Repr

/-- Parse a byte path into its decomposition. -/
def parsePath (p : List Nat) : FsPath :=
  ⟨decide (p.head? = some 47), pathElems p⟩

/-- path.parent_path(): drop the last element. -/
def parentPath (p : FsPath) : FsPath :=
  ⟨p.isAbs, p.comps.dropLast⟩

/-- path.filename(): the last element, empty for a path ending in a
separator. -/
def filenameComp (p : FsPath) : List Nat :=
  (p.comps.getLast?).getD []

/-- Lexical normalisation of an element list: empty and dot elements
are removed, a dot-dot element removes its predecessor. -/
def normComps (cs : List (List Nat)) : List (List Nat) :=
  cs.foldl (fun acc c =>
    if c = [] ∨ c = [46] then acc
    else if c = [46, 46] then acc.dropLast
    else acc ++ [c]) []

/-- Lexical model of fs::canonical (and weakly_canonical) against a
clean absolute working directory: absolutise, then normalise. Symbolic
links are outside the model; the spec treats operating-system path
resolution as an excluded collaborator. -/
def canonicalize (cwd : List (List Nat)) (p : FsPath) : FsPath :=
  ⟨true, normComps ((if p.isAbs then [] else cwd) ++ p.comps)⟩

def commonPrefixLen : List (List Nat) → List (List Nat) → Nat
  | a :: as, b :: bs => if a = b then commonPrefixLen as bs + 1 else 0
  | _, _ => 0

/-- path.lexically_relative(base) for two canonical absolute paths (the
form fs::relative produces): the shared prefix is removed, each leftover
base element becomes a dot-dot element, and two equal paths give the
single-dot path. -/
def lexRelative (p base : FsPath) : FsPath :=
  if base.comps.length - commonPrefixLen p.comps base.comps = 0 ∧
      p.comps.drop (commonPrefixLen p.comps base.comps) = [] then
    ⟨false, [[46]]⟩
  else
    ⟨false, List.replicate
      (base.comps.length - commonPrefixLen p.comps base.comps) [46, 46] ++
      p.comps.drop (commonPrefixLen p.comps base.comps)⟩

/-- fs::relative(p, base) = weakly_canonical(p) lexically relative to
weakly_canonical(base). -/
def fsRelative (cwd : List (List Nat)) (p base : FsPath) : FsPath :=
  lexRelative (canonicalize cwd p) (canonicalize cwd base)

/-- path.string() in generic format: optional leading separator, the
elements joined by separators. -/
def renderPath (p : FsPath) : List Nat :=
  (if p.isAbs then [47] else []) ++ joinComps p.comps

/-- The record path computed by archiveItem (simple_archiver.cpp lines
38 to 44): the relative path of the item against its base; when that is
empty or the single-dot path, the filename of the item is substituted.
The record stores the rendered string. -/
def emittedRelPath (cwd : List (List Nat)) (item base : FsPath) :
    List Nat :=
  renderPath
    (if fsRelative cwd item base = ⟨false, []⟩ ∨
        fsRelative cwd item base = ⟨false, [[46]]⟩ then
      (⟨false, if filenameComp item = [] then []
        else [filenameComp item]⟩ : FsPath)
    else fsRelative cwd item base)

/-- The base path main computes for a top-level input (simple_archiver
lines 106 to 113): the parent path when the input has one, else the
current working directory, then canonicalised. -/
def mainBasePath (cwd : List (List Nat)) (input : FsPath) : FsPath :=
  canonicalize cwd
    (if parentPath input = ⟨false, []⟩ then ⟨true, cwd⟩ else parentPath input)

theorem normComps_mem (cs : List (List Nat)) :
    ∀ c ∈ normComps cs, c ≠ [] ∧ c ≠ [46] := by
  have key : ∀ (ds acc : List (List Nat)),
      (∀ c ∈ acc, c ≠ [] ∧ c ≠ [46]) →
      ∀ c ∈ ds.foldl (fun acc c =>
        if c = [] ∨ c = [46] then acc
        else if c = [46, 46] then acc.dropLast
        else acc ++ [c]) acc, c ≠ [] ∧ c ≠ [46] := by
    intro ds
    induction ds with
    | nil => intro acc hacc c hc; exact hacc c hc
    | cons d ds ih =>
      intro acc hacc c hc
      simp only [List.foldl_cons] at hc
      refine ih _ ?_ c hc
      intro c2 hc2
      by_cases hd1 : d = [] ∨ d = [46]
      · rw [if_pos hd1] at hc2; exact hacc c2 hc2
      · rw [if_neg hd1] at hc2
        by_cases hd2 : d = [46, 46]
        · rw [if_pos hd2] at hc2
          exact hacc c2 (List.dropLast_subset _ hc2)
        · rw [if_neg hd2] at hc2
          rcases List.mem_append.mp hc2 with h | h
          · exact hacc c2 h
          · simp only [List.mem_singleton] at h
            subst h
            push_neg at hd1
            exact hd1
  intro c hc
  exact key cs [] (by simp) c hc

theorem lexRelative_isAbs (p base : FsPath) :
    (lexRelative p base).isAbs = false := by
  unfold lexRelative
  split <;> rfl

theorem lexRelative_cases (p base : FsPath) :
    lexRelative p base = ⟨false, [[46]]⟩ ∨
      ((lexRelative p base).comps ≠ [] ∧
        ∀ c ∈ (lexRelative p base).comps, c = [46, 46] ∨ c ∈ p.comps) := by
  unfold lexRelative
  split
  · exact Or.inl rfl
  · rename_i hcond
    right
    constructor
    · intro hemp
      rw [List.append_eq_nil] at hemp
      obtain ⟨hl, hr⟩ := hemp
      apply hcond
      constructor
      · have := congrArg List.length hl
        simpa using this
      · exact hr
    · intro c hc
      rcases List.mem_append.mp hc with h | h
      · exact Or.inl (List.eq_of_mem_replicate h)
      · exact Or.inr (List.drop_subset _ _ h)

theorem joinComps_cons_ne (c : List Nat) (cs : List (List Nat))
    (hc : c ≠ []) (hc2 : c ≠ [46]) :
    joinComps (c :: cs) ≠ [] ∧ joinComps (c :: cs) ≠ [46] := by
  cases cs with
  | nil => exact ⟨hc, hc2⟩
  | cons d ds =>
    have hform : joinComps (c :: d :: ds) = c ++ 47 :: joinComps (d :: ds) :=
      rfl
    rw [hform]
    have hlen : 1 ≤ c.length := by
      cases c with
      | nil => exact absurd rfl hc
      | cons x xs => simp
    constructor
    · intro h
      have := congrArg List.length h
      simp at this
    · intro h
      have := congrArg List.length h
      simp only [List.length_append, List.length_cons, List.length_nil] at this
      omega

/-- Claim C7 (amended): for every entry whose own filename element is
non-empty and not the dot element, the emitted record path - the
relative path against the associated base, with the filename substituted
when that relative path is empty or the single dot - is never the empty
string and never the dot string. For a top-level input whose path ends
in a separator (its filename element is empty, as for the input d/) or
is the dot path, the substituted filename is itself empty or dot and a
degenerate record path is emitted, which the counterexample shows. -/
theorem tzar_C7_path_substitution (cwd : List (List Nat))
    (item base : FsPath) (h1 : filenameComp item ≠ [])
    (h2 : filenameComp item ≠ [46]) :
    emittedRelPath cwd item base ≠ [] ∧
      emittedRelPath cwd item base ≠ [46] := by
  unfold emittedRelPath
  rw [if_neg h1]
  split
  · simpa [renderPath, joinComps] using ⟨h1, h2⟩
  · rename_i hrel
    push_neg at hrel
    obtain ⟨hrel1, hrel2⟩ := hrel
    rcases lexRelative_cases (canonicalize cwd item) (canonicalize cwd base)
      with hdot | ⟨hne, hmem⟩
    · exact absurd hdot hrel2
    · obtain ⟨c, cs, hcomps⟩ := List.exists_cons_of_ne_nil hne
      have hcP : c ≠ [] ∧ c ≠ [46] := by
        have hcm := hmem c (by rw [hcomps]; exact List.mem_cons_self c cs)
        rcases hcm with h | h
        · subst h; exact ⟨by decide, by decide⟩
        · exact normComps_mem _ c h
      have habs := lexRelative_isAbs (canonicalize cwd item)
        (canonicalize cwd base)
      unfold renderPath fsRelative
      rw [habs]
      rw [show (lexRelative (canonicalize cwd item)
        (canonicalize cwd base)).comps = c :: cs from hcomps]
      simpa using joinComps_cons_ne c cs hcP.1 hcP.2

/-- Witness for C7 on a clean one-element relative input. -/
theorem tzar_C7_witness :
    filenameComp (parsePath [97]) ≠ [] ∧
      emittedRelPath [[99]] (parsePath [97])
        (mainBasePath [[99]] (parsePath [97])) ≠ [] :=
  ⟨by decide,
    (tzar_C7_path_substitution [[99]] (parsePath [97])
      (mainBasePath [[99]] (parsePath [97])) (by decide) (by decide)).1⟩

/-- Counterexample to claim C7 as stated: the directory input d/ (bytes
100 47, a trailing separator) under working directory /c has parent path
d, so its canonical base equals the canonical item; the relative path is
the dot path, the substituted filename of d/ is the empty element, and
the writer emits a record whose path is the empty string - the claimed
guarantee that no emitted record has an empty or degenerate path fails.
The item is a directory, so archiveItem does write this record. -/
theorem tzar_C7_counterexample :
    emittedRelPath [[99]] (parsePath [100, 47])
      (mainBasePath [[99]] (parsePath [100, 47])) = [] := by
  decide

/-- Status of a top-level input as the first pass of simple_archiver
main observes it (lines 98 to 130): missing, a regular file, a directory
together with its recursively enumerated descendants, or an unsupported
kind of entry. -/
inductive InputStatus
  | missing
  | regFile
  | isDir (descendants : List FsPath)
  | otherKind

/-- One command-line input with its observed status. -/
structure ArchInput where
  path : FsPath
  status : InputStatus

/-- The collection pass of main: an existing regular file is pushed, an
existing directory is pushed followed by all its descendants, missing
and unsupported inputs are skipped with a warning. -/
def collectItems : List ArchInput → List FsPath
  | [] => []
  | inp :: rest =>
    (match inp.status with
     | .missing => []
     | .regFile => [inp.path]
     | .isDir ds => inp.path :: ds
     | .otherKind => []) ++ collectItems rest

/-- Outcome summary of one archiver run: whether the output container
file was created, and the process exit code. -/
structure ArchOutcome where
  createdOutput : Bool
  exit : Nat
deriving DecidableEq, Repr

/-- simple_archiver main after collection (lines 132 to 156): an empty
collection prints the nothing-to-do message and exits 0 without ever
opening the output file (lines 133 to 136); otherwise the output file is
opened, which creates it, and a failed open exits 1. -/
def archiverMain (inputs : List ArchInput) (outputOpens : Bool) :
    ArchOutcome :=
  if collectItems inputs = [] then ⟨false, 0⟩
  else if outputOpens then ⟨true, 0⟩ else ⟨false, 1⟩

/-- Claim C8: when the collection pass gathers zero entries, the
archiver creates no output container file at all and terminates with
exit code 0, reporting success. -/
theorem tzar_C8_no_items_no_output (inputs : List ArchInput) (b : Bool)
    (h : collectItems inputs = []) :
    archiverMain inputs b = ⟨false, 0⟩ := by
  rw [archiverMain, if_pos h]

/-- Witness for C8: a run whose single input path does not exist. -/
theorem tzar_C8_witness :
    archiverMain [⟨⟨false, [[120]]⟩, .missing⟩] true = ⟨false, 0⟩ :=
  tzar_C8_no_items_no_output [⟨⟨false, [[120]]⟩, .missing⟩] true rfl
